import Mathlib

/-!
Verification of the room lifecycle and hazard-physics core of the
Cleanup-crew game (src/room.rs, src/enemy.rs, src/reaper.rs).

Embedding conventions:
* `f32` scalar values appearing in the room state machine, the breach tracker
  and the pressure model are embedded as exact rationals (`ℚ`); every f32
  value the embedded code paths manipulate is produced by `+ - * max` and
  comparisons, which the rational embedding reproduces exactly.
* The suction integrator (`apply_breach_forces_to_entities`) normalises
  vectors, which needs square roots, so velocities and forces there live in
  `ℝ` (see the physics section below).
* Rust `usize` arithmetic is embedded with an explicit panic: subtraction
  below zero and out-of-bounds indexing return `Except.error`, mirroring the
  overflow/bounds panics of the compiled program.
* Layout strings are ASCII in every level asset, so `as_bytes()[i]` agrees
  with character indexing, and `String::len` agrees with the character count.
-/

namespace Cleanup

/-- World-space 2D vector (Bevy `Vec2`), coordinates embedded as rationals. -/
structure Vec2 where
  x : ℚ
  y : ℚ
deriving DecidableEq, Repr

/-- Squared euclidean distance between two points.  The source compares
`a.distance(b)` against `1.0`; since both sides are nonnegative this is
equivalent to comparing the squared distance against `1`, which keeps the
embedding inside `ℚ`. -/
def dist2 (a b : Vec2) : ℚ :=
  (a.x - b.x) ^ 2 + (a.y - b.y) ^ 2

/-- Embeds `b.distance(w) < 1.0` (room.rs:489, room.rs:496). -/
def distLt1 (a b : Vec2) : Bool :=
  decide (dist2 a b < 1)

/-- Glass barrier state (window.rs `GlassState`, used by room.rs:487-501). -/
inductive GlassState where
  | Intact
  | Broken
deriving DecidableEq, Repr

/-- Embeds `struct Room` (room.rs:31-42).  Door entities are identified by
numeric ids.  The two tile-space corners exist in the source but are read only
by the dead function `generate_enemies_for_all_rooms`, so they are kept as
data here and never used. -/
structure Room where
  cleared : Bool
  doors : List Nat
  numofenemies : Nat
  top_left_corner : Vec2
  bot_right_corner : Vec2
  tile_top_left_corner : Vec2
  tile_bot_right_corner : Vec2
  layout : List String
  air_pressure : ℚ
  breaches : List Vec2
deriving DecidableEq, Repr

/-- Embeds `Room::new` (room.rs:45-58). -/
def Room.new (tlc brc tileTlc tileBrc : Vec2) (roomLayout : List String) : Room where
  cleared := false
  doors := []
  numofenemies := 0
  top_left_corner := tlc
  bot_right_corner := brc
  tile_top_left_corner := tileTlc
  tile_bot_right_corner := tileBrc
  layout := roomLayout
  air_pressure := 100
  breaches := []

/-- Embeds `Room::bounds_check` (room.rs:60-62): inclusive point-in-rectangle. -/
def Room.bounds_check (r : Room) (pos : Vec2) : Bool :=
  decide (r.top_left_corner.x ≤ pos.x) && decide (r.top_left_corner.y ≥ pos.y) &&
  decide (r.bot_right_corner.x ≥ pos.x) && decide (r.bot_right_corner.y ≤ pos.y)

/-- Embeds `Room::within_bounds_check` (room.rs:64-66): the rectangle inset by
64 units with strict comparisons against the floored position. -/
def Room.within_bounds_check (r : Room) (pos : Vec2) : Bool :=
  decide (r.top_left_corner.x + 64 < (⌊pos.x⌋ : ℚ)) &&
  decide (r.top_left_corner.y - 64 > (⌊pos.y⌋ : ℚ)) &&
  decide (r.bot_right_corner.x - 64 > (⌊pos.x⌋ : ℚ)) &&
  decide (r.bot_right_corner.y + 64 < (⌊pos.y⌋ : ℚ))

/-- Embeds `enum LevelState` (room.rs:21-26).  The reward anchor is a `Vec3`
in the source whose z component is always the constant `Z_ENTITIES = 0.0`
(a draw-order layer); only the xy part is kept. -/
inductive LevelState where
  | EnteredRoom (index : Nat)
  | InRoom (index : Nat) (anchor : Vec2)
  | NotRoom
deriving DecidableEq, Repr

/-! ### Checked Rust primitives -/

/-- Rust `usize` subtraction.  Going below zero is an arithmetic underflow,
a panic under the debug profile the project builds with (and a program error
under every profile per the Rust reference). -/
def usizeSub (a b : Nat) : Except String Nat :=
  if b ≤ a then .ok (a - b) else .error "attempt to subtract with overflow"

/-- Rust indexing `v[i]` on a slice or `Vec`: out of bounds is a panic. -/
def indexOf {α : Type} (l : List α) (i : Nat) : Except String α :=
  match l.get? i with
  | some a => .ok a
  | none => .error "index out of bounds"

/-- Rust byte indexing `s.as_bytes()[i]` on an ASCII string. -/
def strIndex (s : String) (i : Nat) : Except String Char :=
  indexOf s.toList i

/-! ### Population generator (`generate_enemies_in_room`, room.rs:241-356) -/

/-- Embeds room.rs:259-260: `1 * rooms_cleared + num_of_enemies + station_level * 2`. -/
def scaledNumEnemies (numOfEnemies roomsCleared stationLevel : Nat) : Nat :=
  1 * roomsCleared + numOfEnemies + stationLevel * 2

/-- Embeds room.rs:264: `1.0 + (station_level as f32) * 0.5`. -/
def healthMultiplier (stationLevel : Nat) : ℚ :=
  1 + (stationLevel : ℚ) * (1 / 2)

/-- Floor tiles of one layout row: `for lx in 5..width` collecting `'#'`
characters (room.rs:274-283).  The world coordinates pushed by the source are
the image of the tile indices under an injective affine map
(`world = corner + 32 * tile`), and all later uses round-trip back to tile
indices exactly, so floors are carried as tile index pairs `(lx, ly)`. -/
def rowFloors (row : String) (ly width : Nat) : Except String (List (Nat × Nat)) :=
  (List.range' 5 (width - 5)).foldlM
    (fun acc lx => do
      let ch ← strIndex row lx
      if ch = '#' then pure (acc ++ [(lx, ly)]) else pure acc)
    []

/-- Embeds the candidate-collection phase of `generate_enemies_in_room`
(room.rs:266-290): `.ok none` is the "no spawn possible" early return, and
`.error` is a panic (underflow of `len - 6`, or indexing a missing row/byte). -/
def collectFloors (layout : List String) : Except String (Option (List (Nat × Nat))) := do
  let height ← usizeSub layout.length 6
  if height ≤ 0 then return none
  let row0 ← indexOf layout 0
  let width ← usizeSub row0.length 6
  let floors ← (List.range' 5 (height - 5)).foldlM
    (fun acc ly => do
      let row ← indexOf layout ly
      let here ← rowFloors row ly width
      pure (acc ++ here))
    []
  if floors.isEmpty then return none
  return some floors

/-- Neighbour offsets `(dy, dx)` visited by room.rs:306-314, in source order
(the `(0, 0)` centre is skipped). -/
def neighborOffsets : List (Int × Int) :=
  [(-1, -1), (-1, 0), (-1, 1), (0, -1), (0, 1), (1, -1), (1, 0), (1, 1)]

/-- Embeds the 8-neighbour wall/glass scan of room.rs:305-328, with the same
early exit on the first `'W'`/`'G'` found.  Neighbours outside the rectangle
`[0, layout[0].len()) × [0, layout.len())` are skipped; indexing a row shorter
than row 0 panics exactly as `layout[ny].as_bytes()[nx]` does. -/
def anyNeighborWall (layout : List String) (row0len : Nat) (tx ty : Int) :
    List (Int × Int) → Except String Bool
  | [] => .ok false
  | (dy, dx) :: rest => do
    let nx := tx + dx
    let ny := ty + dy
    if nx < 0 ∨ ny < 0 ∨ (layout.length : Int) ≤ ny ∨ (row0len : Int) ≤ nx then
      anyNeighborWall layout row0len tx ty rest
    else do
      let row ← indexOf layout ny.toNat
      let ch ← strIndex row nx.toNat
      if ch = 'W' ∨ ch = 'G' then .ok true
      else anyNeighborWall layout row0len tx ty rest

/-- Embeds room.rs:301-328 for one candidate: the source converts the world
position back to tile indices with `((x - tlc.x) / TILE).round()`, which in
exact arithmetic is the identity on the tile indices, then runs the
8-neighbour scan. -/
def adjacentToWall (layout : List String) (t : Nat × Nat) : Except String Bool :=
  anyNeighborWall layout (layout.headD "").length (t.1 : Int) (t.2 : Int) neighborOffsets

/-- One hostile unit spawn request issued by the generator. -/
structure SpawnedUnit where
  tile : Nat × Nat
  ranged : Bool
  healthMultiplier : ℚ
deriving DecidableEq, Repr

/-- Embeds the spawn loop of room.rs:300-343: iterate over the first
`scaled_num_enemies` shuffled candidates with their enumeration index, skip a
candidate whose 8-neighbourhood holds a wall or glass tile (skipped, not
replaced), and make every candidate whose index is `≡ 2 mod 4` a ranged unit. -/
def spawnLoop (layout : List String) (hm : ℚ) :
    Nat → List (Nat × Nat) → Except String (List SpawnedUnit)
  | _, [] => .ok []
  | idx, t :: rest => do
    let adj ← adjacentToWall layout t
    let tail ← spawnLoop layout hm (idx + 1) rest
    if adj then .ok tail
    else .ok ({ tile := t, ranged := idx % 4 == 2, healthMultiplier := hm } :: tail)

/-- Result of `generate_enemies_in_room`: the value written to
`room.numofenemies` (room.rs:261, written before any early return), the spawn
requests issued, and the reward anchor (`none` encodes the `None` return). -/
structure GenResult where
  numofenemies : Nat
  spawned : List SpawnedUnit
  anchor : Option (Nat × Nat)
deriving DecidableEq, Repr

/-- Embeds `generate_enemies_in_room` (room.rs:241-356).  The two calls to
`floors.shuffle` draw fresh permutations from the rng; they are passed in as
the function parameters `shuffle1` (before taking spawn points, room.rs:292-298)
and `shuffle2` (before choosing the reward anchor, room.rs:345-351; note the
source applies it to the already shuffled list).  Any run of the compiled
code corresponds to instantiating them with permutations. -/
def generateEnemiesInRoom (numOfEnemies roomsCleared stationLevel : Nat)
    (layout : List String)
    (shuffle1 shuffle2 : List (Nat × Nat) → List (Nat × Nat)) :
    Except String GenResult := do
  let n := scaledNumEnemies numOfEnemies roomsCleared stationLevel
  let hm := healthMultiplier stationLevel
  let floors? ← collectFloors layout
  match floors? with
  | none => return { numofenemies := n, spawned := [], anchor := none }
  | some floors =>
    let floors1 := shuffle1 floors
    let spawned ← spawnLoop layout hm 0 (floors1.take n)
    let floors2 := shuffle2 floors1
    let anchor ← indexOf floors2 0
    return { numofenemies := n, spawned := spawned, anchor := some anchor }

/-! ### Game world state and the per-tick systems -/

/-- Live `Enemy`-tagged unit (enemy.rs `Enemy` + `Health` + `Transform`).
`check_enemy_health` reads only the health; the position is carried to make
explicit that death attribution ignores where the unit is. -/
structure EnemyU where
  pos : Vec2
  hp : ℚ
deriving DecidableEq, Repr

/-- The slice of ECS state the embedded systems read and write: the room
registry (`RoomVec`), the occupancy cursor (`LevelState`), the player position
and `NumOfCleared` counter, the live `Enemy`-tagged units, and the set of door
entities currently sealed (doors carrying `Collidable`). -/
structure World where
  rooms : List Room
  lvl : LevelState
  playerPos : Vec2
  numCleared : Nat
  enemies : List EnemyU
  sealedDoors : List Nat
deriving DecidableEq, Repr

/-- Tile index to world position (room.rs:278-280):
`world = (tlc.x + lx * 32, tlc.y - ly * 32)`. -/
def tileToWorld (r : Room) (t : Nat × Nat) : Vec2 where
  x := r.top_left_corner.x + (t.1 : ℚ) * 32
  y := r.top_left_corner.y - (t.2 : ℚ) * 32

/-- Initial health of a spawned unit: melee base 50 (enemy.rs:195), ranged
base 40 (enemy.rs:226), both scaled by the health multiplier. -/
def spawnedHp (u : SpawnedUnit) : ℚ :=
  (if u.ranged then 40 else 50) * u.healthMultiplier

/-- Embeds the system `track_rooms` (room.rs:137-157): only in `NotRoom`, scan
all rooms in order and mark `EnteredRoom` for each uncleared room whose inset
bounds contain the player (the source loop has no break, so the last matching
room wins). -/
def trackRoomsStep (w : World) : World :=
  match w.lvl with
  | .EnteredRoom _ => w
  | .InRoom _ _ => w
  | .NotRoom =>
    let newLvl := w.rooms.enum.foldl
      (fun acc p =>
        if !p.2.cleared && p.2.within_bounds_check w.playerPos then
          LevelState.EnteredRoom p.1
        else acc)
      LevelState.NotRoom
    { w with lvl := newLvl }

/-- Embeds the system `entered_room` (room.rs:159-201) for one tick, with the
two shuffle draws and the station tier as parameters.  In state
`EnteredRoom index` it: seals every door of the room (inserts `Collidable`,
room.rs:177-181); runs the population generator, which writes
`room.numofenemies` and issues spawn requests; and moves to `InRoom` only when
the generator returns an anchor (room.rs:194-196).  Table generation and the
last-room table despawn touch only excluded table entities and are omitted. -/
def enteredRoomStep (shuffle1 shuffle2 : List (Nat × Nat) → List (Nat × Nat))
    (stationLevel : Nat) (w : World) : Except String World :=
  match w.lvl with
  | .EnteredRoom index => do
    let room ← indexOf w.rooms index
    let sealed := w.sealedDoors ++ room.doors
    let gen ← generateEnemiesInRoom 1 w.numCleared stationLevel room.layout shuffle1 shuffle2
    let room1 := { room with numofenemies := gen.numofenemies }
    let newEnemies := gen.spawned.map (fun u => { pos := tileToWorld room1 u.tile, hp := spawnedHp u })
    let lvl1 := match gen.anchor with
      | some t => LevelState.InRoom index (tileToWorld room1 t)
      | none => w.lvl
    .ok { w with
          rooms := w.rooms.set index room1
          sealedDoors := sealed
          enemies := w.enemies ++ newEnemies
          lvl := lvl1 }
  | _ => .ok w

/-- Embeds the system `playing_room` (room.rs:203-239): in state
`InRoom index _`, when the room's live-enemy counter is 0, unseal the room's
doors (remove `Collidable`, room.rs:225-229), mark the room cleared, increment
the player's `NumOfCleared` and return to `NotRoom`.  The heart and reward
spawned there are excluded pickup entities and are omitted. -/
def playingRoomStep (w : World) : Except String World :=
  match w.lvl with
  | .InRoom index _ => do
    let room ← indexOf w.rooms index
    if room.numofenemies = 0 then
      let room1 := { room with cleared := true }
      .ok { w with
            rooms := w.rooms.set index room1
            sealedDoors := w.sealedDoors.filter (fun d => d ∉ room.doors)
            numCleared := w.numCleared + 1
            lvl := LevelState.NotRoom }
    else .ok w
  | _ => .ok w

/-- Death resolution kernel of `check_enemy_health` (enemy.rs:184-191):
process the units in query order; a unit with `hp ≤ 0` is despawned and, when
the state is `InRoom index`, decrements `rooms[index].numofenemies` — a
`usize` decrement that panics when the counter is already 0. -/
def resolveDeaths (lvl : LevelState) :
    List EnemyU → List Room → Except String (List EnemyU × List Room)
  | [], rooms => .ok ([], rooms)
  | e :: rest, rooms =>
    if e.hp ≤ 0 then do
      let rooms1 ← match lvl with
        | .InRoom index _ => do
          let r ← indexOf rooms index
          let n1 ← usizeSub r.numofenemies 1
          .ok (rooms.set index { r with numofenemies := n1 })
        | _ => .ok rooms
      let (es, rooms2) ← resolveDeaths lvl rest rooms1
      .ok (es, rooms2)
    else do
      let (es, rooms2) ← resolveDeaths lvl rest rooms
      .ok (e :: es, rooms2)

/-- Embeds the system `check_enemy_health` (enemy.rs:178-192). -/
def checkEnemyHealthStep (w : World) : Except String World := do
  let (es, rooms) ← resolveDeaths w.lvl w.enemies w.rooms
  .ok { w with enemies := es, rooms := rooms }

/-! ### Breach tracking and air pressure -/

/-- Embeds one room's pressure update in `update_room_air_pressure`
(room.rs:447-458): rooms with no breach are skipped; otherwise the pressure
drops by `2.5 * breachCount * deltaSeconds` and is floored at 0. -/
def updatePressure (dt : ℚ) (r : Room) : Room :=
  if r.breaches.isEmpty then r
  else { r with air_pressure := max (r.air_pressure - 5 / 2 * (r.breaches.length : ℚ) * dt) 0 }

/-- Embeds the system `update_room_air_pressure` (room.rs:443-465). -/
def pressureStep (dt : ℚ) (w : World) : World :=
  { w with rooms := w.rooms.map (updatePressure dt) }

/-- Embeds the expanded-bounds test of room.rs:475-481: the room rectangle
grown by 64 units in every direction, inclusive. -/
def expandedContains (r : Room) (p : Vec2) : Bool :=
  decide (r.top_left_corner.x - 64 ≤ p.x) && decide (r.top_left_corner.y + 64 ≥ p.y) &&
  decide (r.bot_right_corner.x + 64 ≥ p.x) && decide (r.bot_right_corner.y - 64 ≤ p.y)

/-- Embeds the per-room breach update of room.rs:487-501: a broken barrier is
recorded unless a breach within distance 1 already exists; an intact barrier
removes every breach within distance 1 of it. -/
def roomBreachUpdate (windowPos : Vec2) (gs : GlassState) (r : Room) : Room :=
  match gs with
  | .Broken =>
    if r.breaches.any (fun b => distLt1 b windowPos) then r
    else { r with breaches := r.breaches ++ [windowPos] }
  | .Intact =>
    { r with breaches := r.breaches.filter (fun b => !distLt1 b windowPos) }

/-- Embeds the room scan of room.rs:474-503 for one barrier: the first room
whose expanded bounds contain it is updated, then the loop breaks. -/
def applyToFirstMatching (windowPos : Vec2) (gs : GlassState) :
    List Room → List Room
  | [] => []
  | r :: rest =>
    if expandedContains r windowPos then roomBreachUpdate windowPos gs r :: rest
    else r :: applyToFirstMatching windowPos gs rest

/-- Embeds the system `track_window_breaches` (room.rs:467-505) over the
polled barrier states. -/
def breachStep (windows : List (Vec2 × GlassState)) (w : World) : World :=
  { w with rooms := windows.foldl (fun rs p => applyToFirstMatching p.1 p.2 rs) w.rooms }

/-! ### Suction force integrator (`apply_breach_forces_to_entities`, room.rs:508-575)

Velocity integration normalises vectors, so velocities and forces are
embedded over `ℝ`; positions stay rational and are cast in. -/

/-- Planar vector over `ℝ` for velocities, forces and accelerations. -/
structure RVec2 where
  x : ℝ
  y : ℝ

instance : Add RVec2 := ⟨fun a b => ⟨a.x + b.x, a.y + b.y⟩⟩

instance : Zero RVec2 := ⟨⟨0, 0⟩⟩

instance : SMul ℝ RVec2 := ⟨fun c v => ⟨c * v.x, c * v.y⟩⟩

/-- Euclidean magnitude, `Vec2::length`. -/
noncomputable def RVec2.length (v : RVec2) : ℝ :=
  Real.sqrt (v.x ^ 2 + v.y ^ 2)

/-- Cast a rational position vector into the real plane. -/
noncomputable def Vec2.toR (v : Vec2) : RVec2 :=
  ⟨(v.x : ℝ), (v.y : ℝ)⟩

open Classical in
/-- Force contributed by one breach to the suction sum (room.rs:538-544):
zero for a breach within distance 1 of the entity, otherwise magnitude 25000
along the unit vector from the entity to the breach
(`to_breach.normalize() * 25000.0`).  The source guard `distance > 1.0` is
taken in the equivalent squared form `dist2 > 1`. -/
noncomputable def breachForce (worldPos breach : Vec2) : RVec2 :=
  if 1 < dist2 worldPos breach then
    let toBreach : RVec2 := ⟨(breach.x : ℝ) - (worldPos.x : ℝ), (breach.y : ℝ) - (worldPos.y : ℝ)⟩
    (25000 / toBreach.length) • toBreach
  else 0

open Classical in
/-- Embeds the closure `apply_suction` (room.rs:536-553): sum the per-breach
forces, divide by the mass, integrate into the velocity over `deltaSeconds`,
then clamp the speed to 200 (`velocity.normalize() * max_velocity`). -/
noncomputable def applySuction (breaches : List Vec2) (dt : ℚ) (worldPos : Vec2)
    (mass : ℚ) (v : RVec2) : RVec2 :=
  let totalForce := breaches.foldl (fun acc b => acc + breachForce worldPos b) 0
  let acceleration := ((mass : ℝ))⁻¹ • totalForce
  let v1 := v + (dt : ℝ) • acceleration
  if 200 < v1.length then (200 / v1.length) • v1 else v1

/-- One breach-pullable entity: position, velocity and `PulledByFluid` mass. -/
structure PhysEntity where
  pos : Vec2
  vel : RVec2
  mass : ℚ

/-- The state read and written by `apply_breach_forces_to_entities`: the room
registry, the player, and the `Enemy`- and `Table`-tagged pullable entities. -/
structure PhysState where
  rooms : List Room
  player : PhysEntity
  enemies : List PhysEntity
  tables : List PhysEntity

open Classical in
/-- Embeds the system `apply_breach_forces_to_entities` (room.rs:508-575):
find the first room whose bounds contain the player (room.rs:516-521); bail
out if there is none (room.rs:523-526) or if it has no breaches
(room.rs:528-531); otherwise apply suction to the player unconditionally and
to exactly those enemies and tables whose own positions are inside that
room's bounds. -/
noncomputable def applyBreachForcesStep (dt : ℚ) (s : PhysState) : PhysState :=
  match s.rooms.find? (fun r => r.bounds_check s.player.pos) with
  | none => s
  | some room =>
    if room.breaches.isEmpty then s
    else
      { s with
        player := { s.player with
          vel := applySuction room.breaches dt s.player.pos s.player.mass s.player.vel }
        enemies := s.enemies.map (fun e =>
          if room.bounds_check e.pos then
            { e with vel := applySuction room.breaches dt e.pos e.mass e.vel }
          else e)
        tables := s.tables.map (fun e =>
          if room.bounds_check e.pos then
            { e with vel := applySuction room.breaches dt e.pos e.mass e.vel }
          else e) }

/-! ### The tick-level step relation

Each constructor is one `Update` system touching the room registry or the
occupancy cursor, or an environment move by the systems that do not:
`combat` covers every collision/damage system (they mutate only enemy health,
spawn enemies — including the Reaper, reaper.rs:80-108 — or despawn them) and
`move` covers player movement. -/
inductive SysStep : World → World → Prop where
  | track (w : World) : SysStep w (trackRoomsStep w)
  | entered (sh1 sh2 : List (Nat × Nat) → List (Nat × Nat)) (station : Nat)
      (w w1 : World) : enteredRoomStep sh1 sh2 station w = .ok w1 → SysStep w w1
  | playing (w w1 : World) : playingRoomStep w = .ok w1 → SysStep w w1
  | deaths (w w1 : World) : checkEnemyHealthStep w = .ok w1 → SysStep w w1
  | pressure (dt : ℚ) (w : World) : SysStep w (pressureStep dt w)
  | breachTrack (windows : List (Vec2 × GlassState)) (w : World) :
      SysStep w (breachStep windows w)
  | combat (es : List EnemyU) (w : World) : SysStep w { w with enemies := es }
  | move (p : Vec2) (w : World) : SysStep w { w with playerPos := p }

/-- The `cleared` flag of room `i`, or `false` past the end of the registry. -/
def roomCleared (w : World) (i : Nat) : Bool :=
  match w.rooms.get? i with
  | some r => r.cleared
  | none => false

/-! ### Concrete instances used by the claim witnesses -/

/-- Origin. -/
def vZero : Vec2 := ⟨0, 0⟩

/-- A 12 × 12 all-empty layout: the scanned interior contains no `'#'`, so the
generator finds zero candidate floor tiles. -/
def emptyLayout12 : List String :=
  List.replicate 12 "............"

/-- A 13 × 13 layout whose scanned interior (columns 5-6 of rows 5-6) holds a
floor tile at (5, 5) wedged next to a wall at (4, 4) and a free-standing floor
tile at (6, 6). -/
def layoutWedged : List String :=
  [ ".............",
    ".............",
    ".............",
    ".............",
    "....W........",
    ".....#.......",
    "......#......",
    ".............",
    ".............",
    ".............",
    ".............",
    ".............",
    "............." ]

/-- A 13 × 13 layout whose scanned interior holds exactly one floor tile, at
(6, 6), with no wall or glass anywhere near it. -/
def layoutLone : List String :=
  [ ".............",
    ".............",
    ".............",
    ".............",
    ".............",
    ".............",
    "......#......",
    ".............",
    ".............",
    ".............",
    ".............",
    ".............",
    "............." ]

/-- A room built over `emptyLayout12` with one door entity. -/
def roomEmpty : Room :=
  { Room.new vZero ⟨384, -384⟩ vZero vZero emptyLayout12 with doors := [7] }

/-- World about to run `entered_room` on the degenerate room. -/
def worldDegenerate : World :=
  { rooms := [roomEmpty]
    lvl := .EnteredRoom 0
    playerPos := ⟨100, -100⟩
    numCleared := 0
    enemies := []
    sealedDoors := [] }

/-- World in `InRoom 0` whose room counter is 1 while two `Enemy`-tagged units
are dead this tick — the final-room situation in which the uncounted Reaper
(spawned by reaper.rs:141-149 with the `Enemy` tag but never added to
`numofenemies`) and the last counted enemy die in the same frame. -/
def worldTwoDeaths : World :=
  { rooms := [{ roomEmpty with numofenemies := 1 }]
    lvl := .InRoom 0 vZero
    playerPos := ⟨100, -100⟩
    numCleared := 0
    enemies := [⟨⟨100, -100⟩, 0⟩, ⟨⟨200, -100⟩, -5⟩]
    sealedDoors := [] }

/-- World in `InRoom 0` with the counter at 1 and exactly one dead enemy. -/
def worldOneDeath : World :=
  { rooms := [{ roomEmpty with numofenemies := 1 }]
    lvl := .InRoom 0 vZero
    playerPos := ⟨100, -100⟩
    numCleared := 0
    enemies := [⟨⟨100, -100⟩, 0⟩]
    sealedDoors := [] }

/-- World in `NotRoom` holding one dead enemy. -/
def worldStrayDeath : World :=
  { rooms := [{ roomEmpty with numofenemies := 3 }]
    lvl := .NotRoom
    playerPos := ⟨1000, -1000⟩
    numCleared := 0
    enemies := [⟨⟨100, -100⟩, -2⟩]
    sealedDoors := [] }

/-- World in `InRoom 0` whose room counter has reached 0, with the room not
yet marked cleared and its door still sealed. -/
def worldReady : World :=
  { rooms := [{ roomEmpty with numofenemies := 0 }]
    lvl := .InRoom 0 vZero
    playerPos := ⟨100, -100⟩
    numCleared := 4
    enemies := []
    sealedDoors := [7] }

/-- World whose single room is already cleared. -/
def worldAlreadyCleared : World :=
  { rooms := [{ roomEmpty with cleared := true }]
    lvl := .NotRoom
    playerPos := vZero
    numCleared := 1
    enemies := []
    sealedDoors := [] }

/-- Room with one recorded breach at the origin. -/
def roomBreached : Room :=
  { roomEmpty with breaches := [vZero] }

/-- Physics state whose registry is empty, so the player is inside no room. -/
noncomputable def physNoRoom : PhysState :=
  { rooms := []
    player := { pos := vZero, vel := 0, mass := 50 }
    enemies := [{ pos := ⟨100, -100⟩, vel := 0, mass := 10 }]
    tables := [] }

/-- Physics state with the player inside the breached room and one enemy far
outside it. -/
noncomputable def physInRoom : PhysState :=
  { rooms := [roomBreached]
    player := { pos := ⟨100, -100⟩, vel := 0, mass := 50 }
    enemies := [{ pos := ⟨1000, -1000⟩, vel := 0, mass := 10 }]
    tables := [] }

/-! ## Theorems -/

/-! ### List helpers shared by several developments -/

theorem get?_some_lt_length {α : Type} :
    ∀ (l : List α) (i : Nat) (a : α), l.get? i = some a → i < l.length := by
  intro l
  induction l with
  | nil => intro i a h; cases h
  | cons x xs ih =>
    intro i a h
    cases i with
    | zero => exact Nat.succ_pos _
    | succ j => exact Nat.succ_lt_succ (ih j a h)

theorem get?_set_self {α : Type} :
    ∀ (l : List α) (i : Nat) (a b : α), l.get? i = some a →
      (l.set i b).get? i = some b := by
  intro l
  induction l with
  | nil => intro i a b h; cases h
  | cons x xs ih =>
    intro i a b h
    cases i with
    | zero => rfl
    | succ j => exact ih j a b h

theorem set_same {α : Type} :
    ∀ (l : List α) (i : Nat) (a : α), l.get? i = some a → l.set i a = l := by
  intro l
  induction l with
  | nil => intro i a h; cases h
  | cons x xs ih =>
    intro i a h
    cases i with
    | zero => cases h; rfl
    | succ j => simpa using ih j a h

theorem set_set_same {α : Type} :
    ∀ (l : List α) (i : Nat) (a b : α), (l.set i a).set i b = l.set i b := by
  intro l
  induction l with
  | nil => intro i a b; rfl
  | cons x xs ih =>
    intro i a b
    cases i with
    | zero => rfl
    | succ j => simpa using ih j a b

@[simp]
theorem ok_bind {ε α β : Type} (a : α) (f : α → Except ε β) :
    (Except.ok a >>= f : Except ε β) = f a := rfl

@[simp]
theorem error_bind {ε α β : Type} (e : ε) (f : α → Except ε β) :
    (Except.error e >>= f : Except ε β) = Except.error e := rfl

/-! ### Death resolution (`check_enemy_health`) -/

/-- When occupancy is not `InRoom`, death resolution despawns every dead unit
and leaves the room registry untouched. -/
theorem resolveDeaths_not_in_room (lvl : LevelState)
    (hl : ∀ i a, lvl ≠ .InRoom i a) :
    ∀ (es : List EnemyU) (rooms : List Room),
      resolveDeaths lvl es rooms =
        .ok (es.filter (fun e => !decide (e.hp ≤ 0)), rooms) := by
  intro es
  induction es with
  | nil => intro rooms; rfl
  | cons e rest ih =>
    intro rooms
    by_cases hd : e.hp ≤ 0
    · have hmatch : (match lvl with
          | .InRoom index _ => do
            let r ← indexOf rooms index
            let n1 ← usizeSub r.numofenemies 1
            Except.ok (rooms.set index { r with numofenemies := n1 })
          | _ => Except.ok rooms) = Except.ok rooms := by
        cases lvl with
        | InRoom i a => exact absurd rfl (hl i a)
        | EnteredRoom i => rfl
        | NotRoom => rfl
      simp [resolveDeaths, hd, hmatch, ih rooms, Except.bind]
    · simp [resolveDeaths, hd, ih rooms, Except.bind]

/-- When occupancy is `InRoom i`, death resolution decrements room `i` once
per dead unit — whatever the dead unit's position — provided the counter can
absorb the decrements, and despawns the dead units. -/
theorem resolveDeaths_in_room (i : Nat) (a : Vec2) :
    ∀ (es : List EnemyU) (rooms : List Room) (r : Room),
      rooms.get? i = some r →
      (es.filter (fun e => decide (e.hp ≤ 0))).length ≤ r.numofenemies →
      resolveDeaths (.InRoom i a) es rooms =
        .ok (es.filter (fun e => !decide (e.hp ≤ 0)),
          rooms.set i { r with numofenemies :=
            r.numofenemies - (es.filter (fun e => decide (e.hp ≤ 0))).length }) := by
  intro es
  induction es with
  | nil =>
    intro rooms r hr _
    simpa [resolveDeaths] using (set_same rooms i r hr).symm
  | cons e rest ih =>
    intro rooms r hr hcount
    by_cases hd : e.hp ≤ 0
    · have hlen : (rest.filter (fun e => decide (e.hp ≤ 0))).length + 1 ≤
          r.numofenemies := by
        simpa [List.filter_cons, hd] using hcount
      have hpos : 1 ≤ r.numofenemies :=
        le_trans (Nat.le_add_left 1 _) hlen
      have hidx : indexOf rooms i = .ok r := by
        unfold indexOf
        rw [hr]
      have hsub : usizeSub r.numofenemies 1 = .ok (r.numofenemies - 1) := by
        simp [usizeSub, hpos]
      have hr1 : (rooms.set i { r with numofenemies := r.numofenemies - 1 }).get? i =
          some { r with numofenemies := r.numofenemies - 1 } :=
        get?_set_self rooms i r _ hr
      have hcount1 : (rest.filter (fun e => decide (e.hp ≤ 0))).length ≤
          r.numofenemies - 1 := Nat.le_sub_of_add_le hlen
      have hrec := ih (rooms.set i { r with numofenemies := r.numofenemies - 1 })
        { r with numofenemies := r.numofenemies - 1 } hr1 hcount1
      simp only [resolveDeaths, if_pos hd, hidx, hsub, ok_bind, hrec]
      simp [List.filter_cons, hd, set_set_same, Nat.sub_sub, Nat.add_comm]
    · have hrec := ih rooms r hr (by simpa [List.filter_cons, hd] using hcount)
      simp only [resolveDeaths, if_neg hd, ok_bind, hrec]
      simp [List.filter_cons, hd]

/-- C5.  Outside `InRoom`, a dead `Enemy`-tagged unit is despawned without
touching any room's counter; inside `InRoom i`, every death decrements room
`i`'s counter — regardless of the dying unit's position — and no other room
is modified. -/
theorem c5_death_attribution :
    (∀ w : World, (∀ i a, w.lvl ≠ .InRoom i a) →
      checkEnemyHealthStep w =
        .ok { w with enemies := w.enemies.filter (fun e => !decide (e.hp ≤ 0)) }) ∧
    (∀ (w : World) (i : Nat) (a : Vec2) (r : Room),
      w.lvl = .InRoom i a → w.rooms.get? i = some r →
      (w.enemies.filter (fun e => decide (e.hp ≤ 0))).length ≤ r.numofenemies →
      checkEnemyHealthStep w =
        .ok { w with
              enemies := w.enemies.filter (fun e => !decide (e.hp ≤ 0)),
              rooms := w.rooms.set i { r with numofenemies :=
                r.numofenemies -
                  (w.enemies.filter (fun e => decide (e.hp ≤ 0))).length } }) := by
  constructor
  · intro w hl
    simp [checkEnemyHealthStep, resolveDeaths_not_in_room w.lvl hl, Except.bind]
  · intro w i a r hlvl hr hcount
    rw [checkEnemyHealthStep, hlvl, resolveDeaths_in_room i a w.enemies w.rooms r hr hcount]
    rfl

/-- C5, witness: a dead enemy in `NotRoom` leaves the registry untouched; a
dead enemy in `InRoom 0` with counter 1 drops the counter to 0. -/
theorem c5_death_attribution_witness :
    checkEnemyHealthStep worldStrayDeath =
      .ok { worldStrayDeath with
            enemies := worldStrayDeath.enemies.filter (fun e => !decide (e.hp ≤ 0)) } ∧
    checkEnemyHealthStep worldOneDeath =
      .ok { worldOneDeath with
            enemies := worldOneDeath.enemies.filter (fun e => !decide (e.hp ≤ 0)),
            rooms := worldOneDeath.rooms.set 0
              { { roomEmpty with numofenemies := 1 } with numofenemies :=
                1 - (worldOneDeath.enemies.filter (fun e => decide (e.hp ≤ 0))).length } } := by
  constructor
  · exact c5_death_attribution.1 worldStrayDeath (by intro i a h; cases h)
  · exact c5_death_attribution.2 worldOneDeath 0 vZero
      { roomEmpty with numofenemies := 1 } rfl rfl (by decide)

/-- C1, counterexample.  Running `entered_room` on a room whose layout yields
zero candidate floor tiles leaves occupancy in `EnteredRoom 0` — it does not
revert to `NotRoom` — and the room's door has been sealed. -/
theorem c1_no_revert_counterexample :
    (enteredRoomStep id id 0 worldDegenerate).map World.lvl =
      Except.ok (LevelState.EnteredRoom 0) ∧
    LevelState.EnteredRoom 0 ≠ LevelState.NotRoom ∧
    (enteredRoomStep id id 0 worldDegenerate).map World.sealedDoors = Except.ok [7] := by
  refine ⟨rfl, by decide, rfl⟩

/-- C2.  The generator panics on degenerate layouts: on an empty layout and
on a 5-row layout the `layout.len() - 6` subtraction underflows (the panic of
the debug profile; under the release profile the subsequent `layout[0]` /
`layout[5]` indexing panics instead), while a 12-row all-empty layout takes
the intended non-panicking "no spawn possible" path. -/
theorem c2_degenerate_layout_panics :
    generateEnemiesInRoom 1 0 0 [] id id =
      .error "attempt to subtract with overflow" ∧
    collectFloors (List.replicate 5 "............") =
      .error "attempt to subtract with overflow" ∧
    generateEnemiesInRoom 1 0 0 emptyLayout12 id id =
      .ok { numofenemies := 1, spawned := [], anchor := none } := by
  refine ⟨rfl, rfl, rfl⟩

/-- C3, counterexample.  With base 1, zero rooms cleared and station tier 0
the scaled count is 1 and `layoutWedged` has an eligible floor tile at
(6, 6), yet under the identity permutation (a possible shuffle outcome) the
generator takes only the wall-adjacent candidate (5, 5), skips it, and spawns
0 hostiles instead of 1. -/
theorem c3_wedged_spawn_shortfall_counterexample :
    scaledNumEnemies 1 0 0 = 1 ∧
    collectFloors layoutWedged = .ok (some [(5, 5), (6, 6)]) ∧
    adjacentToWall layoutWedged (6, 6) = .ok false ∧
    (generateEnemiesInRoom 1 0 0 layoutWedged id id).map (fun g => g.spawned.length) =
      .ok 0 := by
  refine ⟨rfl, rfl, rfl, rfl⟩

/-- C4.  Evaluation at the failing input: with the occupied room's counter at
1 and two `Enemy`-tagged units dead in the same tick (the final-room scenario
where the Reaper — tagged `Enemy` but never counted into `numofenemies` — and
the last counted enemy die together), `check_enemy_health` decrements 1 → 0
and then underflows the `usize` counter. -/
theorem c4_counter_underflow_at_failing_input :
    worldTwoDeaths.rooms.map Room.numofenemies = [1] ∧
    worldTwoDeaths.enemies.length = 2 ∧
    checkEnemyHealthStep worldTwoDeaths =
      .error "attempt to subtract with overflow" := by
  refine ⟨rfl, rfl, rfl⟩

/-- C7.  One pressure tick keeps `air_pressure` inside [0, 100]; with at
least one breach it decreases the pressure by exactly
`2.5 * breachCount * deltaSeconds` floored at 0 and never increases it; with
no breach the room is untouched; and the system applies this to every room. -/
theorem c7_air_pressure_bounds (r : Room) (dt : ℚ) (hdt : 0 ≤ dt)
    (h0 : 0 ≤ r.air_pressure) (h100 : r.air_pressure ≤ 100) :
    (0 ≤ (updatePressure dt r).air_pressure ∧
      (updatePressure dt r).air_pressure ≤ 100) ∧
    (r.breaches ≠ [] →
      (updatePressure dt r).air_pressure =
        max (r.air_pressure - 5 / 2 * (r.breaches.length : ℚ) * dt) 0 ∧
      (updatePressure dt r).air_pressure ≤ r.air_pressure) ∧
    (r.breaches = [] → updatePressure dt r = r) ∧
    (∀ w : World, (pressureStep dt w).rooms = w.rooms.map (updatePressure dt)) := by
  have hx : 0 ≤ 5 / 2 * (r.breaches.length : ℚ) * dt := by positivity
  by_cases hb : r.breaches.isEmpty
  · have hnil : r.breaches = [] := List.isEmpty_iff.mp hb
    refine ⟨?_, ?_, fun _ => ?_, fun w => rfl⟩
    · rw [updatePressure, if_pos hb]
      exact ⟨h0, h100⟩
    · intro hne
      exact absurd hnil hne
    · rw [updatePressure, if_pos hb]
  · refine ⟨?_, fun _ => ?_, fun hnil => ?_, fun w => rfl⟩
    · rw [updatePressure, if_neg hb]
      refine ⟨le_max_right _ _, ?_⟩
      exact max_le (le_trans (sub_le_self _ hx) h100) (by norm_num)
    · rw [updatePressure, if_neg hb]
      refine ⟨rfl, ?_⟩
      exact max_le (sub_le_self _ hx) h0
    · exact absurd (List.isEmpty_iff.mpr hnil) hb

/-- C7, witness: a room with one breach at full pressure, one 1-second tick. -/
theorem c7_air_pressure_bounds_witness :
    (0 : ℚ) ≤ 1 ∧ (0 : ℚ) ≤ roomBreached.air_pressure ∧
      roomBreached.air_pressure ≤ 100 ∧
    (0 ≤ (updatePressure 1 roomBreached).air_pressure ∧
      (updatePressure 1 roomBreached).air_pressure ≤ 100) := by
  have h := c7_air_pressure_bounds roomBreached 1 (by norm_num) (by decide) (by decide)
  exact ⟨by norm_num, by decide, by decide, h.1⟩

/-- C10.  Breach-set updates are proximity-deduplicated: a broken barrier
within distance 1 of a recorded breach changes nothing, recording the same
broken barrier twice equals recording it once, and an intact barrier removes
exactly the recorded breaches within distance 1 of it. -/
theorem c10_breach_dedup (r : Room) (wpos : Vec2) :
    ((∃ b ∈ r.breaches, dist2 b wpos < 1) →
      roomBreachUpdate wpos .Broken r = r) ∧
    (roomBreachUpdate wpos .Broken (roomBreachUpdate wpos .Broken r) =
      roomBreachUpdate wpos .Broken r) ∧
    ((roomBreachUpdate wpos .Intact r).breaches =
      r.breaches.filter (fun b => !distLt1 b wpos)) ∧
    (∀ b ∈ r.breaches, dist2 b wpos < 1 →
      b ∉ (roomBreachUpdate wpos .Intact r).breaches) ∧
    (∀ b ∈ r.breaches, ¬ dist2 b wpos < 1 →
      b ∈ (roomBreachUpdate wpos .Intact r).breaches) := by
  refine ⟨?_, ?_, rfl, ?_, ?_⟩
  · rintro ⟨b, hb, hlt⟩
    have hany : r.breaches.any (fun b => distLt1 b wpos) = true :=
      List.any_eq_true.mpr ⟨b, hb, by simpa [distLt1] using hlt⟩
    rw [roomBreachUpdate, if_pos hany]
  · by_cases hany : r.breaches.any (fun b => distLt1 b wpos) = true
    · have h1 : roomBreachUpdate wpos .Broken r = r := by
        rw [roomBreachUpdate, if_pos hany]
      rw [h1, h1]
    · have h1 : roomBreachUpdate wpos .Broken r =
          { r with breaches := r.breaches ++ [wpos] } := by
        rw [roomBreachUpdate, if_neg hany]
      have hself : distLt1 wpos wpos = true := by
        simp [distLt1, dist2]
      have hany2 : (r.breaches ++ [wpos]).any (fun b => distLt1 b wpos) = true :=
        List.any_eq_true.mpr ⟨wpos, by simp, hself⟩
      rw [h1, roomBreachUpdate, if_pos hany2]
  · intro b hb hlt hmem
    have := (List.mem_filter.mp hmem).2
    simp [distLt1, hlt] at this
  · intro b hb hlt
    refine List.mem_filter.mpr ⟨hb, ?_⟩
    simp [distLt1, hlt]

/-- C10, witness: a recorded breach at the origin and a barrier at the
origin — re-reporting it broken changes nothing, reporting it intact empties
the breach set. -/
theorem c10_breach_dedup_witness :
    (∃ b ∈ roomBreached.breaches, dist2 b vZero < 1) ∧
    roomBreachUpdate vZero .Broken roomBreached = roomBreached ∧
    (roomBreachUpdate vZero .Intact roomBreached).breaches = [] := by
  have h := c10_breach_dedup roomBreached vZero
  have hd : dist2 vZero vZero < 1 := by simp [dist2, vZero]
  have hex : ∃ b ∈ roomBreached.breaches, dist2 b vZero < 1 :=
    ⟨vZero, by simp [roomBreached, vZero], hd⟩
  refine ⟨hex, h.1 hex, ?_⟩
  rw [h.2.2.1]
  simp [roomBreached, roomEmpty, distLt1, hd]

/-! ### Population generator lemmas -/

/-- The spawn loop spawns one unit per candidate when every candidate passes
the 8-neighbour check, and stamps every unit with the health multiplier. -/
theorem spawnLoop_all_eligible (layout : List String) (hm : ℚ) :
    ∀ (l : List (Nat × Nat)) (idx : Nat),
      (∀ t ∈ l, adjacentToWall layout t = .ok false) →
      ∃ us, spawnLoop layout hm idx l = .ok us ∧
        us.length = l.length ∧ ∀ u ∈ us, u.healthMultiplier = hm := by
  intro l
  induction l with
  | nil => intro idx _; exact ⟨[], rfl, rfl, by intro u hu; cases hu⟩
  | cons t rest ih =>
    intro idx helig
    obtain ⟨us, hus, huslen, husm⟩ :=
      ih (idx + 1) (fun t ht => helig t (List.mem_cons_of_mem _ ht))
    refine ⟨{ tile := t, ranged := idx % 4 == 2, healthMultiplier := hm } :: us, ?_, ?_, ?_⟩
    · simp only [spawnLoop, helig t (List.mem_cons_self t rest), ok_bind, hus]
      rfl
    · simp [huslen]
    · intro u hu
      rcases List.mem_cons.mp hu with h | h
      · rw [h]
      · exact husm u h

/-- A successful `some` return of the candidate collection is never empty:
the source returns `None` on an empty candidate list before reaching the
spawn loop. -/
theorem collectFloors_some_ne_nil (layout : List String) (floors : List (Nat × Nat))
    (h : collectFloors layout = .ok (some floors)) : floors ≠ [] := by
  unfold collectFloors at h
  cases h1 : usizeSub layout.length 6 with
  | error e => rw [h1] at h; simp at h
  | ok height =>
    rw [h1] at h
    simp only [ok_bind] at h
    by_cases h2 : height ≤ 0
    · rw [if_pos h2] at h
      simp [pure, Except.pure] at h
    · rw [if_neg h2] at h
      cases h3 : indexOf layout 0 with
      | error e => rw [h3] at h; simp at h
      | ok row0 =>
        rw [h3] at h
        simp only [ok_bind] at h
        cases h4 : usizeSub row0.length 6 with
        | error e => rw [h4] at h; simp at h
        | ok width =>
          rw [h4] at h
          simp only [ok_bind] at h
          cases h5 : (List.range' 5 (height - 5)).foldlM
              (fun acc ly => do
                let row ← indexOf layout ly
                let here ← rowFloors row ly width
                pure (acc ++ here))
              ([] : List (Nat × Nat)) with
          | error e => rw [h5] at h; simp at h
          | ok fl =>
            rw [h5] at h
            simp only [ok_bind] at h
            by_cases h6 : fl.isEmpty
            · rw [if_pos h6] at h
              simp [pure, Except.pure] at h
            · rw [if_neg h6] at h
              simp only [ok_bind, pure, Except.pure, Except.ok.injEq,
                Option.some.injEq] at h
              intro hnil
              rw [h, hnil] at h6
              exact h6 rfl

/-- First element of a nonempty list under checked indexing. -/
theorem indexOf_zero_of_ne_nil {α : Type} (l : List α) (h : l ≠ []) :
    ∃ x, indexOf l 0 = .ok x := by
  cases l with
  | nil => exact absurd rfl h
  | cons x xs => exact ⟨x, rfl⟩

/-- When the candidate collection returns `None`, the whole generator returns
the "no spawn possible" result without spawning, with the counter already
scaled. -/
theorem generate_none_of_collect_none (base rc st : Nat) (layout : List String)
    (sh1 sh2 : List (Nat × Nat) → List (Nat × Nat))
    (h : collectFloors layout = .ok none) :
    generateEnemiesInRoom base rc st layout sh1 sh2 =
      .ok { numofenemies := scaledNumEnemies base rc st, spawned := [], anchor := none } := by
  unfold generateEnemiesInRoom
  rw [h]
  rfl

/-- C3, amended.  The generator spawns one hostile per tile among the first
`base + rooms_cleared + 2 * station` shuffled candidates that passes the
8-neighbour check; in particular, when every candidate floor tile is eligible
and there are at least that many, it spawns exactly that many units, each with
health multiplier `1 + 0.5 * station`, writes the same number to the room
counter, and returns a reward anchor. -/
theorem c3_spawn_count_eligible (base rc st : Nat) (layout : List String)
    (floors : List (Nat × Nat))
    (sh1 sh2 : List (Nat × Nat) → List (Nat × Nat))
    (hcf : collectFloors layout = .ok (some floors))
    (hperm1 : (sh1 floors).Perm floors)
    (hperm2 : (sh2 (sh1 floors)).Perm (sh1 floors))
    (helig : ∀ t ∈ floors, adjacentToWall layout t = .ok false)
    (hlen : scaledNumEnemies base rc st ≤ floors.length) :
    ∃ g, generateEnemiesInRoom base rc st layout sh1 sh2 = .ok g ∧
      g.numofenemies = scaledNumEnemies base rc st ∧
      g.spawned.length = scaledNumEnemies base rc st ∧
      (∀ u ∈ g.spawned, u.healthMultiplier = healthMultiplier st) ∧
      g.anchor.isSome = true := by
  have helig1 : ∀ t ∈ (sh1 floors).take (scaledNumEnemies base rc st),
      adjacentToWall layout t = .ok false := by
    intro t ht
    exact helig t (hperm1.mem_iff.mp (List.take_subset _ _ ht))
  obtain ⟨us, hus, huslen, husm⟩ :=
    spawnLoop_all_eligible layout (healthMultiplier st)
      ((sh1 floors).take (scaledNumEnemies base rc st)) 0 helig1
  have hlen1 : ((sh1 floors).take (scaledNumEnemies base rc st)).length =
      scaledNumEnemies base rc st := by
    rw [List.length_take, hperm1.length_eq]
    exact min_eq_left hlen
  have hne : floors ≠ [] := collectFloors_some_ne_nil layout floors hcf
  have hne2 : sh2 (sh1 floors) ≠ [] := by
    intro h0
    have hl2 := hperm2.length_eq
    rw [h0, hperm1.length_eq] at hl2
    exact hne (List.length_eq_zero.mp hl2.symm)
  obtain ⟨anchor0, hanchor⟩ := indexOf_zero_of_ne_nil _ hne2
  refine ⟨{ numofenemies := scaledNumEnemies base rc st, spawned := us,
            anchor := some anchor0 }, ?_, rfl, ?_, husm, rfl⟩
  · unfold generateEnemiesInRoom
    rw [hcf]
    simp only [ok_bind]
    rw [hus]
    simp only [ok_bind]
    rw [hanchor]
    rfl
  · rw [huslen, hlen1]

/-- C3, witness: Scenario A on a layout whose single candidate is eligible —
base 1, zero rooms cleared, station 0 spawns exactly 1 unit at multiplier 1. -/
theorem c3_spawn_count_eligible_witness :
    collectFloors layoutLone = .ok (some [(6, 6)]) ∧
    scaledNumEnemies 1 0 0 = 1 ∧ healthMultiplier 0 = 1 ∧
    ∃ g, generateEnemiesInRoom 1 0 0 layoutLone id id = .ok g ∧
      g.numofenemies = scaledNumEnemies 1 0 0 ∧
      g.spawned.length = scaledNumEnemies 1 0 0 ∧
      (∀ u ∈ g.spawned, u.healthMultiplier = healthMultiplier 0) ∧
      g.anchor.isSome = true := by
  refine ⟨rfl, rfl, by norm_num [healthMultiplier], ?_⟩
  exact c3_spawn_count_eligible 1 0 0 layoutLone [(6, 6)] id id rfl
    (List.Perm.refl _) (List.Perm.refl _)
    (by intro t ht; rcases List.mem_singleton.mp ht with rfl; rfl) (by decide)

/-! ### Degenerate-room entry (C1) -/

/-- C1, amended.  When the generator finds zero candidate floor tiles, the
`entered_room` tick skips the transition to `InRoom` but occupancy stays
`EnteredRoom i` (it does not revert to `NotRoom`): the room's doors are
sealed, its counter is set to the scaled value, and no enemy is spawned. -/
theorem c1_degenerate_room_stays_entered
    (sh1 sh2 : List (Nat × Nat) → List (Nat × Nat)) (station : Nat)
    (w : World) (i : Nat) (r : Room)
    (hlvl : w.lvl = .EnteredRoom i)
    (hr : w.rooms.get? i = some r)
    (hcf : collectFloors r.layout = .ok none) :
    enteredRoomStep sh1 sh2 station w =
      .ok { w with
            rooms := w.rooms.set i
              { r with numofenemies := scaledNumEnemies 1 w.numCleared station }
            sealedDoors := w.sealedDoors ++ r.doors
            enemies := w.enemies
            lvl := .EnteredRoom i } := by
  have hidx : indexOf w.rooms i = .ok r := by
    unfold indexOf
    rw [hr]
  unfold enteredRoomStep
  rw [hlvl]
  simp only [hidx, ok_bind]
  simp only [generate_none_of_collect_none 1 w.numCleared station r.layout sh1 sh2 hcf,
    ok_bind]
  simp [hlvl]

/-- C1, witness: the 12 × 12 all-empty room. -/
theorem c1_degenerate_room_stays_entered_witness :
    worldDegenerate.lvl = .EnteredRoom 0 ∧
    collectFloors roomEmpty.layout = .ok none ∧
    enteredRoomStep id id 0 worldDegenerate =
      .ok { worldDegenerate with
            rooms := worldDegenerate.rooms.set 0
              { roomEmpty with numofenemies := scaledNumEnemies 1 worldDegenerate.numCleared 0 }
            sealedDoors := worldDegenerate.sealedDoors ++ roomEmpty.doors
            enemies := worldDegenerate.enemies
            lvl := .EnteredRoom 0 } := by
  exact ⟨rfl, rfl,
    c1_degenerate_room_stays_entered id id 0 worldDegenerate 0 roomEmpty rfl rfl rfl⟩

/-! ### Cleared-flag invariant (C6) -/

theorem get?_set_ne {α : Type} :
    ∀ (l : List α) (i j : Nat) (a : α), i ≠ j → (l.set i a).get? j = l.get? j := by
  intro l
  induction l with
  | nil => intro i j a _; rfl
  | cons x xs ih =>
    intro i j a hij
    cases i with
    | zero =>
      cases j with
      | zero => exact absurd rfl hij
      | succ k => rfl
    | succ m =>
      cases j with
      | zero => rfl
      | succ k => simpa using ih m k a (fun hmk => hij (by rw [hmk]))

theorem indexOf_ok_get? {α : Type} (l : List α) (i : Nat) (a : α)
    (h : indexOf l i = .ok a) : l.get? i = some a := by
  unfold indexOf at h
  cases h1 : l.get? i with
  | none => rw [h1] at h; cases h
  | some b => rw [h1] at h; cases h; rfl

/-- Setting index `j` to a room with the same `cleared` flag leaves the
pointwise cleared map unchanged. -/
theorem set_preserves_cleared (rooms : List Room) (j : Nat) (r r1 : Room)
    (hr : rooms.get? j = some r) (hc : r1.cleared = r.cleared) :
    ∀ i, ((rooms.set j r1).get? i).map Room.cleared =
      (rooms.get? i).map Room.cleared := by
  intro i
  by_cases hij : j = i
  · subst hij
    rw [get?_set_self rooms j r r1 hr, hr]
    simp [hc]
  · rw [get?_set_ne rooms j i r1 hij]

theorem trackRoomsStep_rooms (w : World) : (trackRoomsStep w).rooms = w.rooms := by
  cases hl : w.lvl <;> simp [trackRoomsStep, hl]

theorem updatePressure_cleared (dt : ℚ) (r : Room) :
    (updatePressure dt r).cleared = r.cleared := by
  unfold updatePressure
  by_cases hb : r.breaches.isEmpty
  · rw [if_pos hb]
  · rw [if_neg hb]

theorem roomBreachUpdate_cleared (p : Vec2) (g : GlassState) (r : Room) :
    (roomBreachUpdate p g r).cleared = r.cleared := by
  cases g with
  | Broken =>
    unfold roomBreachUpdate
    by_cases hb : r.breaches.any (fun b => distLt1 b p)
    · rw [if_pos hb]
    · rw [if_neg hb]
  | Intact => rfl

theorem applyToFirstMatching_cleared (p : Vec2) (g : GlassState) :
    ∀ (rs : List Room) (i : Nat),
      ((applyToFirstMatching p g rs).get? i).map Room.cleared =
        (rs.get? i).map Room.cleared := by
  intro rs
  induction rs with
  | nil => intro i; rfl
  | cons r rest ih =>
    intro i
    unfold applyToFirstMatching
    by_cases hb : expandedContains r p
    · rw [if_pos hb]
      cases i with
      | zero => simp [roomBreachUpdate_cleared]
      | succ k => rfl
    · rw [if_neg hb]
      cases i with
      | zero => rfl
      | succ k => simpa using ih k

theorem breachFold_cleared (windows : List (Vec2 × GlassState)) :
    ∀ (rs : List Room) (i : Nat),
      ((windows.foldl (fun rs p => applyToFirstMatching p.1 p.2 rs) rs).get? i).map
          Room.cleared = (rs.get? i).map Room.cleared := by
  induction windows with
  | nil => intro rs i; rfl
  | cons wd rest ih =>
    intro rs i
    rw [List.foldl_cons, ih, applyToFirstMatching_cleared]

/-- Case analysis of a successful `entered_room` tick. -/
theorem enteredRoomStep_ok_cases
    (sh1 sh2 : List (Nat × Nat) → List (Nat × Nat)) (st : Nat) (w w1 : World)
    (h : enteredRoomStep sh1 sh2 st w = .ok w1) :
    w1 = w ∨
    ∃ index room gen, w.lvl = .EnteredRoom index ∧
      indexOf w.rooms index = .ok room ∧
      generateEnemiesInRoom 1 w.numCleared st room.layout sh1 sh2 = .ok gen ∧
      w1.rooms = w.rooms.set index { room with numofenemies := gen.numofenemies } := by
  unfold enteredRoomStep at h
  cases hlvl : w.lvl with
  | EnteredRoom index =>
    rw [hlvl] at h
    cases hidx : indexOf w.rooms index with
    | error e =>
      simp only [hidx, error_bind] at h
      exact Except.noConfusion h
    | ok room =>
      simp only [hidx, ok_bind] at h
      cases hgen : generateEnemiesInRoom 1 w.numCleared st room.layout sh1 sh2 with
      | error e =>
        simp only [hgen, error_bind] at h
        exact Except.noConfusion h
      | ok gen =>
        simp only [hgen, ok_bind, Except.ok.injEq] at h
        right
        exact ⟨index, room, gen, rfl, hidx, hgen, by rw [← h]⟩
  | InRoom index a =>
    rw [hlvl] at h
    simp only [Except.ok.injEq] at h
    exact Or.inl h.symm
  | NotRoom =>
    rw [hlvl] at h
    simp only [Except.ok.injEq] at h
    exact Or.inl h.symm

/-- Case analysis of a successful `playing_room` tick. -/
theorem playingRoomStep_ok_cases (w w1 : World) (h : playingRoomStep w = .ok w1) :
    w1 = w ∨
    ∃ index a room, w.lvl = .InRoom index a ∧
      indexOf w.rooms index = .ok room ∧ room.numofenemies = 0 ∧
      w1 = { w with
             rooms := w.rooms.set index { room with cleared := true }
             sealedDoors := w.sealedDoors.filter (fun d => d ∉ room.doors)
             numCleared := w.numCleared + 1
             lvl := .NotRoom } := by
  unfold playingRoomStep at h
  cases hlvl : w.lvl with
  | InRoom index a =>
    rw [hlvl] at h
    cases hidx : indexOf w.rooms index with
    | error e =>
      simp only [hidx, error_bind] at h
      exact Except.noConfusion h
    | ok room =>
      simp only [hidx, ok_bind] at h
      by_cases hz : room.numofenemies = 0
      · rw [if_pos hz] at h
        simp only [Except.ok.injEq] at h
        exact Or.inr ⟨index, a, room, rfl, hidx, hz, h.symm⟩
      · rw [if_neg hz] at h
        simp only [Except.ok.injEq] at h
        exact Or.inl h.symm
  | EnteredRoom index =>
    rw [hlvl] at h
    simp only [Except.ok.injEq] at h
    exact Or.inl h.symm
  | NotRoom =>
    rw [hlvl] at h
    simp only [Except.ok.injEq] at h
    exact Or.inl h.symm

/-- Death resolution never changes any room's `cleared` flag. -/
theorem resolveDeaths_cleared_pointwise (lvl : LevelState) :
    ∀ (es : List EnemyU) (rooms : List Room) (es1 : List EnemyU) (rooms1 : List Room),
      resolveDeaths lvl es rooms = .ok (es1, rooms1) →
      ∀ i, (rooms1.get? i).map Room.cleared = (rooms.get? i).map Room.cleared := by
  intro es
  induction es with
  | nil =>
    intro rooms es1 rooms1 h i
    cases h
    rfl
  | cons e rest ih =>
    intro rooms es1 rooms1 h i
    by_cases hd : e.hp ≤ 0
    · simp only [resolveDeaths, if_pos hd] at h
      cases hlvl : lvl with
      | InRoom j a =>
        rw [hlvl] at h
        cases hidx : indexOf rooms j with
        | error e2 =>
          simp only [hidx, error_bind] at h
          exact Except.noConfusion h
        | ok r =>
          simp only [hidx, ok_bind] at h
          cases hsub : usizeSub r.numofenemies 1 with
          | error e2 =>
            simp only [hsub, error_bind] at h
            exact Except.noConfusion h
          | ok n1 =>
            simp only [hsub, ok_bind] at h
            cases hrec : resolveDeaths lvl rest
                (rooms.set j { r with numofenemies := n1 }) with
            | error e2 =>
              rw [hlvl] at hrec
              simp only [hrec, error_bind] at h
              exact Except.noConfusion h
            | ok pr =>
              obtain ⟨esr, roomsr⟩ := pr
              rw [hlvl] at hrec
              simp only [hrec, ok_bind, Except.ok.injEq, Prod.mk.injEq] at h
              obtain ⟨-, h2⟩ := h
              rw [← h2, ih _ _ _ (by rw [hlvl]; exact hrec) i]
              exact set_preserves_cleared rooms j r { r with numofenemies := n1 }
                (indexOf_ok_get? _ _ _ hidx) rfl i
      | EnteredRoom j =>
        rw [hlvl] at h
        simp only [ok_bind] at h
        cases hrec : resolveDeaths lvl rest rooms with
        | error e2 =>
          rw [hlvl] at hrec
          simp only [hrec, error_bind] at h
          exact Except.noConfusion h
        | ok pr =>
          obtain ⟨esr, roomsr⟩ := pr
          rw [hlvl] at hrec
          simp only [hrec, ok_bind, Except.ok.injEq, Prod.mk.injEq] at h
          obtain ⟨-, h2⟩ := h
          rw [← h2]
          exact ih _ _ _ (by rw [hlvl]; exact hrec) i
      | NotRoom =>
        rw [hlvl] at h
        simp only [ok_bind] at h
        cases hrec : resolveDeaths lvl rest rooms with
        | error e2 =>
          rw [hlvl] at hrec
          simp only [hrec, error_bind] at h
          exact Except.noConfusion h
        | ok pr =>
          obtain ⟨esr, roomsr⟩ := pr
          rw [hlvl] at hrec
          simp only [hrec, ok_bind, Except.ok.injEq, Prod.mk.injEq] at h
          obtain ⟨-, h2⟩ := h
          rw [← h2]
          exact ih _ _ _ (by rw [hlvl]; exact hrec) i
    · simp only [resolveDeaths, if_neg hd] at h
      cases hrec : resolveDeaths lvl rest rooms with
      | error e2 =>
        simp only [hrec, error_bind] at h
        exact Except.noConfusion h
      | ok pr =>
        obtain ⟨esr, roomsr⟩ := pr
        simp only [hrec, ok_bind, Except.ok.injEq, Prod.mk.injEq] at h
        obtain ⟨-, h2⟩ := h
        rw [← h2]
        exact ih _ _ _ hrec i

/-- Every system step either leaves all `cleared` flags unchanged or is the
clear transition of `playing_room` on the occupied room with counter 0. -/
theorem sysStep_cleared_cases (w w1 : World) (h : SysStep w w1) :
    (∀ i, (w1.rooms.get? i).map Room.cleared = (w.rooms.get? i).map Room.cleared) ∨
    (∃ index a room, w.lvl = .InRoom index a ∧ w.rooms.get? index = some room ∧
      room.numofenemies = 0 ∧ playingRoomStep w = .ok w1 ∧
      w1.rooms = w.rooms.set index { room with cleared := true } ∧
      w1.lvl = .NotRoom) := by
  cases h with
  | track w => left; intro i; rw [trackRoomsStep_rooms]
  | entered sh1 sh2 st w w1 hstep =>
    left
    rcases enteredRoomStep_ok_cases sh1 sh2 st w w1 hstep with
      h1 | ⟨index, room, gen, hlvl, hidx, hgen, hrooms⟩
    · intro i; rw [h1]
    · intro i
      rw [hrooms]
      exact set_preserves_cleared w.rooms index room
        { room with numofenemies := gen.numofenemies }
        (indexOf_ok_get? _ _ _ hidx) rfl i
  | playing w w1 hstep =>
    rcases playingRoomStep_ok_cases w w1 hstep with
      h1 | ⟨index, a, room, hlvl, hidx, hz, hw1⟩
    · left; intro i; rw [h1]
    · right
      exact ⟨index, a, room, hlvl, indexOf_ok_get? _ _ _ hidx, hz, hstep,
        by rw [hw1], by rw [hw1]⟩
  | deaths w w1 hstep =>
    left
    unfold checkEnemyHealthStep at hstep
    cases hrd : resolveDeaths w.lvl w.enemies w.rooms with
    | error e =>
      simp only [hrd, error_bind] at hstep
      exact Except.noConfusion hstep
    | ok pr =>
      obtain ⟨es1, rooms1⟩ := pr
      simp only [hrd, ok_bind, Except.ok.injEq] at hstep
      intro i
      rw [← hstep]
      exact resolveDeaths_cleared_pointwise w.lvl w.enemies w.rooms es1 rooms1 hrd i
  | pressure dt w =>
    left
    intro i
    show (((w.rooms.map (updatePressure dt)).get? i).map Room.cleared) = _
    rw [List.get?_map]
    cases hg : w.rooms.get? i with
    | none => rfl
    | some r => simp [updatePressure_cleared]
  | breachTrack windows w =>
    left
    intro i
    exact breachFold_cleared windows w.rooms i
  | combat es w => left; intro i; rfl
  | move p w => left; intro i; rfl

theorem roomCleared_true_iff (w : World) (i : Nat) :
    roomCleared w i = true ↔ (w.rooms.get? i).map Room.cleared = some true := by
  unfold roomCleared
  cases h : w.rooms.get? i <;> simp

theorem roomCleared_congr (w w1 : World) (i : Nat)
    (h : (w1.rooms.get? i).map Room.cleared = (w.rooms.get? i).map Room.cleared) :
    roomCleared w1 i = roomCleared w i := by
  unfold roomCleared
  cases h1 : w.rooms.get? i with
  | none =>
    rw [h1] at h
    cases h2 : w1.rooms.get? i with
    | none => rfl
    | some r => rw [h2] at h; simp at h
  | some r =>
    rw [h1] at h
    cases h2 : w1.rooms.get? i with
    | none => rw [h2] at h; simp at h
    | some r1 => rw [h2] at h; simpa using h

theorem sysStep_cleared_mono (w w1 : World) (h : SysStep w w1) (i : Nat)
    (hc : roomCleared w i = true) : roomCleared w1 i = true := by
  rcases sysStep_cleared_cases w w1 h with
    hp | ⟨index, a, room, hlvl, hidx, hz, hstep, hrooms, hlvl1⟩
  · rw [roomCleared_congr w w1 i (hp i)]; exact hc
  · rw [roomCleared_true_iff] at hc ⊢
    rw [hrooms]
    by_cases hij : index = i
    · subst hij
      rw [get?_set_self _ _ room _ hidx]
      rfl
    · rw [get?_set_ne _ _ _ _ hij]
      exact hc

/-- C6.  Along any run of the systems, a room's `cleared` flag never goes
back from `true` to `false`; the only step that turns it on is the
`playing_room` clear transition, which fires exactly when occupancy is
`InRoom i` and room `i`'s live-enemy counter is 0, and which returns
occupancy to `NotRoom`. -/
theorem c6_cleared_monotone_and_unique_path :
    (∀ w w1 : World, Relation.ReflTransGen SysStep w w1 →
      ∀ i, roomCleared w i = true → roomCleared w1 i = true) ∧
    (∀ w w1 : World, SysStep w w1 → ∀ i, roomCleared w i = false →
      roomCleared w1 i = true →
      ∃ a r, w.lvl = .InRoom i a ∧ w.rooms.get? i = some r ∧
        r.numofenemies = 0 ∧ playingRoomStep w = .ok w1 ∧ w1.lvl = .NotRoom) ∧
    (∀ (w w1 : World) (i : Nat) (a : Vec2) (r : Room), w.lvl = .InRoom i a →
      w.rooms.get? i = some r → r.numofenemies = 0 →
      playingRoomStep w = .ok w1 →
      roomCleared w1 i = true ∧ w1.lvl = .NotRoom) := by
  refine ⟨?_, ?_, ?_⟩
  · intro w w1 hpath i hc
    induction hpath with
    | refl => exact hc
    | tail hab hbc ih => exact sysStep_cleared_mono _ _ hbc i ih
  · intro w w1 hstep i hfalse htrue
    rcases sysStep_cleared_cases w w1 hstep with
      hp | ⟨index, a, room, hlvl, hidx, hz, hplay, hrooms, hlvl1⟩
    · rw [roomCleared_congr w w1 i (hp i), hfalse] at htrue
      cases htrue
    · by_cases hij : index = i
      · subst hij
        exact ⟨a, room, hlvl, hidx, hz, hplay, hlvl1⟩
      · rw [roomCleared_true_iff] at htrue
        rw [hrooms, get?_set_ne _ _ _ _ hij] at htrue
        have hcontra := (roomCleared_true_iff w i).mpr htrue
        rw [hfalse] at hcontra
        cases hcontra
  · intro w w1 i a r hlvl hr hz hstep
    have hidx : indexOf w.rooms i = .ok r := by
      unfold indexOf
      rw [hr]
    unfold playingRoomStep at hstep
    rw [hlvl] at hstep
    simp only [hidx, ok_bind, if_pos hz, Except.ok.injEq] at hstep
    constructor
    · rw [roomCleared_true_iff, ← hstep]
      show ((w.rooms.set i { r with cleared := true }).get? i).map Room.cleared = some true
      rw [get?_set_self _ _ r _ hr]
      rfl
    · rw [← hstep]

/-- C6, witness: the no-op path on a cleared room, and a concrete clear
transition with the counter at 0. -/
theorem c6_cleared_monotone_and_unique_path_witness :
    roomCleared worldAlreadyCleared 0 = true ∧
    (roomCleared worldAlreadyCleared 0 = true →
      roomCleared worldAlreadyCleared 0 = true) ∧
    (roomCleared (pressureStep 1 worldAlreadyCleared) 0 = true) ∧
    (∃ w1, playingRoomStep worldReady = .ok w1 ∧
      roomCleared w1 0 = true ∧ w1.lvl = .NotRoom) := by
  have hmono := c6_cleared_monotone_and_unique_path.1 worldAlreadyCleared
    (pressureStep 1 worldAlreadyCleared)
    (Relation.ReflTransGen.single (SysStep.pressure 1 worldAlreadyCleared)) 0
  have hrun : playingRoomStep worldReady =
      .ok { worldReady with
            rooms := worldReady.rooms.set 0
              { { roomEmpty with numofenemies := 0 } with cleared := true }
            sealedDoors := worldReady.sealedDoors.filter
              (fun d => d ∉ ({ roomEmpty with numofenemies := 0 } : Room).doors)
            numCleared := worldReady.numCleared + 1
            lvl := .NotRoom } := rfl
  have hfire := c6_cleared_monotone_and_unique_path.2.2 worldReady _ 0 vZero
    { roomEmpty with numofenemies := 0 } rfl rfl rfl hrun
  exact ⟨rfl, fun h => h, hmono rfl, ⟨_, hrun, hfire.1, hfire.2⟩⟩

/-! ### Suction integrator (C8, C9) -/

theorem RVec2.length_nonneg (v : RVec2) : 0 ≤ v.length :=
  Real.sqrt_nonneg _

theorem RVec2.length_smul (c : ℝ) (v : RVec2) :
    (c • v).length = |c| * v.length := by
  show Real.sqrt ((c * v.x) ^ 2 + (c * v.y) ^ 2) = |c| * Real.sqrt (v.x ^ 2 + v.y ^ 2)
  rw [mul_pow, mul_pow, ← mul_add, Real.sqrt_mul (sq_nonneg c), Real.sqrt_sq_eq_abs]

open Classical in
/-- The speed clamp of room.rs:549-552 caps the magnitude at 200. -/
theorem clamp200_length_le (v1 : RVec2) :
    (if 200 < v1.length then (200 / v1.length) • v1 else v1).length ≤ 200 := by
  by_cases h : 200 < v1.length
  · have hpos : 0 < v1.length := lt_trans (by norm_num) h
    have hdiv : (0 : ℝ) ≤ 200 / v1.length := le_of_lt (div_pos (by norm_num) hpos)
    have heq : ((200 / v1.length) • v1).length = 200 := by
      rw [RVec2.length_smul, abs_of_nonneg hdiv, div_mul_cancel₀ _ (ne_of_gt hpos)]
    rw [if_pos h, heq]
  · rw [if_neg h]
    exact le_of_not_lt h

theorem dist2_cast_real (p b : Vec2) :
    ((dist2 p b : ℚ) : ℝ) =
      ((b.x : ℝ) - (p.x : ℝ)) ^ 2 + ((b.y : ℝ) - (p.y : ℝ)) ^ 2 := by
  unfold dist2
  push_cast
  ring

/-- A breach farther than 1 unit contributes a force of magnitude exactly
25000 pointing from the entity toward the breach. -/
theorem breachForce_far (p b : Vec2) (h : 1 < dist2 p b) :
    (breachForce p b).length = 25000 ∧
    ∃ c : ℝ, 0 < c ∧ breachForce p b =
      c • RVec2.mk ((b.x : ℝ) - (p.x : ℝ)) ((b.y : ℝ) - (p.y : ℝ)) := by
  have hS : (1 : ℝ) < ((b.x : ℝ) - (p.x : ℝ)) ^ 2 + ((b.y : ℝ) - (p.y : ℝ)) ^ 2 := by
    rw [← dist2_cast_real]
    exact_mod_cast h
  have hL : 0 < (RVec2.mk ((b.x : ℝ) - (p.x : ℝ)) ((b.y : ℝ) - (p.y : ℝ))).length := by
    show 0 < Real.sqrt _
    exact Real.sqrt_pos.mpr (lt_trans zero_lt_one hS)
  constructor
  · unfold breachForce
    rw [if_pos h]
    show ((25000 / (RVec2.mk _ _).length) • RVec2.mk _ _).length = 25000
    rw [RVec2.length_smul, abs_of_nonneg (le_of_lt (div_pos (by norm_num) hL)),
      div_mul_cancel₀ _ (ne_of_gt hL)]
  · refine ⟨25000 / (RVec2.mk ((b.x : ℝ) - (p.x : ℝ)) ((b.y : ℝ) - (p.y : ℝ))).length,
      div_pos (by norm_num) hL, ?_⟩
    unfold breachForce
    rw [if_pos h]

/-- A breach within 1 unit of the entity contributes zero force. -/
theorem breachForce_near (p b : Vec2) (h : ¬ 1 < dist2 p b) :
    breachForce p b = 0 := by
  unfold breachForce
  rw [if_neg h]

/-- One suction step never leaves the velocity above the 200 clamp. -/
theorem applySuction_length_le (breaches : List Vec2) (dt : ℚ) (p : Vec2)
    (m : ℚ) (v : RVec2) : (applySuction breaches dt p m v).length ≤ 200 := by
  unfold applySuction
  exact clamp200_length_le _

open Classical in
/-- C8.  One suction integration step: every breach farther than 1 unit
contributes a force of magnitude 25000 directed from the entity toward the
breach, breaches within 1 unit contribute zero, the summed force is divided
by the mass and integrated into the velocity over `deltaSeconds`, the result
is clamped to magnitude 200, and therefore the speed stays at most 200 after
any positive number of steps. -/
theorem c8_suction_step (breaches : List Vec2) (dt : ℚ) (p : Vec2) (m : ℚ)
    (v : RVec2) :
    (∀ b, 1 < dist2 p b →
      (breachForce p b).length = 25000 ∧
      ∃ c : ℝ, 0 < c ∧ breachForce p b =
        c • RVec2.mk ((b.x : ℝ) - (p.x : ℝ)) ((b.y : ℝ) - (p.y : ℝ))) ∧
    (∀ b, ¬ 1 < dist2 p b → breachForce p b = 0) ∧
    (∀ v1 : RVec2, v1 = v + (dt : ℝ) • ((m : ℝ))⁻¹ •
        breaches.foldl (fun acc b => acc + breachForce p b) 0 →
      applySuction breaches dt p m v =
        if 200 < v1.length then (200 / v1.length) • v1 else v1) ∧
    (applySuction breaches dt p m v).length ≤ 200 ∧
    (∀ n, 1 ≤ n →
      ((fun u => applySuction breaches dt p m u)^[n] v).length ≤ 200) := by
  refine ⟨fun b hb => breachForce_far p b hb, fun b hb => breachForce_near p b hb,
    ?_, applySuction_length_le breaches dt p m v, ?_⟩
  · intro v1 hv1
    subst hv1
    rfl
  · intro n hn
    induction n with
    | zero => cases hn
    | succ k ih =>
      rw [Function.iterate_succ_apply']
      exact applySuction_length_le breaches dt p m _

/-- C8, witness: a single breach at (3, 4) seen from the origin is 5 units
away, so its force has magnitude 25000, and a step from rest at mass 50 over
1 second stays within the 200 clamp. -/
theorem c8_suction_step_witness :
    (1 : ℚ) < dist2 vZero ⟨3, 4⟩ ∧
    (breachForce vZero ⟨3, 4⟩).length = 25000 ∧
    (applySuction [⟨3, 4⟩] 1 vZero 50 0).length ≤ 200 := by
  have hd : (1 : ℚ) < dist2 vZero ⟨3, 4⟩ := by norm_num [dist2, vZero]
  have h := c8_suction_step [⟨3, 4⟩] 1 vZero 50 0
  exact ⟨hd, (h.1 ⟨3, 4⟩ hd).1, h.2.2.2.1⟩

/-! ### Suction frame property (C9) -/

theorem applyBreachForcesStep_none (dt : ℚ) (s : PhysState)
    (hfind : s.rooms.find? (fun r => r.bounds_check s.player.pos) = none) :
    applyBreachForcesStep dt s = s := by
  unfold applyBreachForcesStep
  rw [hfind]

theorem applyBreachForcesStep_noBreach (dt : ℚ) (s : PhysState) (room : Room)
    (hfind : s.rooms.find? (fun r => r.bounds_check s.player.pos) = some room)
    (hb : room.breaches.isEmpty = true) :
    applyBreachForcesStep dt s = s := by
  unfold applyBreachForcesStep
  rw [hfind]
  simp [hb]

theorem applyBreachForcesStep_found (dt : ℚ) (s : PhysState) (room : Room)
    (hfind : s.rooms.find? (fun r => r.bounds_check s.player.pos) = some room)
    (hb : room.breaches.isEmpty = false) :
    applyBreachForcesStep dt s =
      { s with
        player := { s.player with
          vel := applySuction room.breaches dt s.player.pos s.player.mass s.player.vel }
        enemies := s.enemies.map (fun e =>
          if room.bounds_check e.pos then
            { e with vel := applySuction room.breaches dt e.pos e.mass e.vel }
          else e)
        tables := s.tables.map (fun e =>
          if room.bounds_check e.pos then
            { e with vel := applySuction room.breaches dt e.pos e.mass e.vel }
          else e) } := by
  have hb2 : ¬ room.breaches.isEmpty = true := by
    rw [hb]
    exact Bool.false_ne_true
  unfold applyBreachForcesStep
  rw [hfind]
  simp only [if_neg hb2]

/-- C9.  One tick of the suction system: if the player is inside no room, or
the room containing the player has no breaches, no entity is touched;
otherwise only the player and the enemies and tables positioned inside that
room's bounds get new velocities, everything else — including positions,
masses, the room registry and every entity outside the room — is unchanged. -/
theorem c9_suction_frame (dt : ℚ) (s : PhysState) :
    (s.rooms.find? (fun r => r.bounds_check s.player.pos) = none →
      applyBreachForcesStep dt s = s) ∧
    (∀ room, s.rooms.find? (fun r => r.bounds_check s.player.pos) = some room →
      room.breaches = [] → applyBreachForcesStep dt s = s) ∧
    (∀ room, s.rooms.find? (fun r => r.bounds_check s.player.pos) = some room →
      room.breaches ≠ [] →
      (applyBreachForcesStep dt s).rooms = s.rooms ∧
      (applyBreachForcesStep dt s).player.pos = s.player.pos ∧
      (applyBreachForcesStep dt s).player.mass = s.player.mass ∧
      (applyBreachForcesStep dt s).player.vel =
        applySuction room.breaches dt s.player.pos s.player.mass s.player.vel ∧
      (∀ i e, s.enemies.get? i = some e →
        (applyBreachForcesStep dt s).enemies.get? i =
          some (if room.bounds_check e.pos then
              { e with vel := applySuction room.breaches dt e.pos e.mass e.vel }
            else e)) ∧
      (∀ i e, s.enemies.get? i = some e → room.bounds_check e.pos = false →
        (applyBreachForcesStep dt s).enemies.get? i = some e) ∧
      (∀ i e, s.tables.get? i = some e →
        (applyBreachForcesStep dt s).tables.get? i =
          some (if room.bounds_check e.pos then
              { e with vel := applySuction room.breaches dt e.pos e.mass e.vel }
            else e)) ∧
      (∀ i e, s.tables.get? i = some e → room.bounds_check e.pos = false →
        (applyBreachForcesStep dt s).tables.get? i = some e)) := by
  refine ⟨applyBreachForcesStep_none dt s, ?_, ?_⟩
  · intro room hfind hb
    exact applyBreachForcesStep_noBreach dt s room hfind (by rw [hb]; rfl)
  · intro room hfind hb
    have hbe : room.breaches.isEmpty = false := by
      cases hbl : room.breaches with
      | nil => exact absurd hbl hb
      | cons x xs => rfl
    have hstep := applyBreachForcesStep_found dt s room hfind hbe
    rw [hstep]
    refine ⟨rfl, rfl, rfl, rfl, ?_, ?_, ?_, ?_⟩
    · intro i e he
      show ((s.enemies.map _).get? i) = _
      rw [List.get?_map, he]
      rfl
    · intro i e he hb2
      show ((s.enemies.map _).get? i) = _
      rw [List.get?_map, he]
      simp [hb2]
    · intro i e he
      show ((s.tables.map _).get? i) = _
      rw [List.get?_map, he]
      rfl
    · intro i e he hb2
      show ((s.tables.map _).get? i) = _
      rw [List.get?_map, he]
      simp [hb2]

/-- C9, witness: with no room containing the player nothing changes, and an
enemy outside the breached room keeps its velocity while the room registry is
untouched. -/
theorem c9_suction_frame_witness :
    applyBreachForcesStep 1 physNoRoom = physNoRoom ∧
    (applyBreachForcesStep 1 physInRoom).rooms = physInRoom.rooms ∧
    (applyBreachForcesStep 1 physInRoom).enemies.get? 0 =
      some { pos := ⟨1000, -1000⟩, vel := 0, mass := 10 } := by
  have h1 := (c9_suction_frame 1 physNoRoom).1 rfl
  have h3 := (c9_suction_frame 1 physInRoom).2.2 roomBreached rfl
    (by intro h0; cases h0)
  exact ⟨h1, h3.1, h3.2.2.2.2.2.1 0 { pos := ⟨1000, -1000⟩, vel := 0, mass := 10 } rfl rfl⟩

end Cleanup
